import Mathlib

/-!
# Traffic light: mailbox and phase state machine

A shallow embedding of `src/TrafficLight.cpp`.

* `MessageQueue<T>` is a record around its container `_queue`; `send` and
  `receive` are the bodies executed under `_mutex`, hence atomic state
  transformers.  A `receive` whose wait predicate `!_queue.empty()` is false
  does not return: it is `none`.
* `TrafficLight` carries `_currentPhase` and `_msgQueue`.  The loop of
  `waitForGreen` and the loop of `cycleThroughPhases` are given as one
  iteration each, plus fuelled/scheduled runs of these iterations.
* Clock readings are whole numbers of ticks; the conversion of a tick
  difference to `double` seconds, which is the standard library's, is a
  parameter of the timer loop.
* Threads are interleaved in two ways: `Sys` takes the phase change of the
  timer (lines 88-92) as one step; `Threads` separates the write of
  `_currentPhase` (line 88, outside the mutex) from the send (lines 91-92).
-/

namespace TrafficSim

/-- Modelled from the spec: the enumeration is declared in `TrafficLight.h`,
which is not among the sources; the code uses exactly the two enumerators
`red` (the spec's `Stop`) and `green` (the spec's `Go`). -/
inductive TrafficLightPhase where
  | red
  | green
  deriving DecidableEq, Repr

/-- Modelled from the spec: the class template is declared in
`TrafficLight.h`, which is not among the sources.  Its member `_queue` is a
standard sequence container (the code calls `empty`, `back`, `clear` and
`emplace_back` on it); the front of the list is the front of the container.
`_mutex` and `_cond` only serialise the bodies below and carry no data. -/
structure MessageQueue (T : Type) where
  _queue : List T
  deriving DecidableEq, Repr

namespace MessageQueue

variable {T : Type}

/-- A freshly constructed message queue: the container is default-constructed,
hence empty. -/
def fresh : MessageQueue T := ⟨[]⟩

/-- The call `_queue.clear()`. -/
def clear (q : MessageQueue T) : MessageQueue T :=
  { q with _queue := [] }

/-- The call `_queue.emplace_back(std::move(msg))`. -/
def emplace_back (q : MessageQueue T) (msg : T) : MessageQueue T :=
  { q with _queue := q._queue ++ [msg] }

/-- `MessageQueue<T>::receive`, lines 7-17.  The condition wait lets the body
proceed only when `!_queue.empty()`; otherwise the caller stays blocked and
nothing is returned (`none`).  When it proceeds, the message is `_queue.back()`
and the container is cleared. -/
def receive (q : MessageQueue T) : Option (T × MessageQueue T) :=
  match q._queue with
  | [] => none
  | x :: xs =>
    let message := (x :: xs).getLast (List.cons_ne_nil x xs)
    some (message, q.clear)

/-- `MessageQueue<T>::send`, lines 20-29: clear the container, then append the
message.  (`notify_one` wakes a waiter and changes no data.) -/
def send (q : MessageQueue T) (msg : T) : MessageQueue T :=
  (q.clear).emplace_back msg

end MessageQueue

/-- One mailbox operation issued by some thread. -/
inductive Op (T : Type) where
  | send (v : T)
  | receive
  deriving DecidableEq, Repr

/-- Effect of one operation on the mailbox together with the value returned to
the caller, if any.  A `receive` on an empty mailbox does not return and leaves
the mailbox as it is. -/
def applyOp {T : Type} (q : MessageQueue T) : Op T → MessageQueue T × Option T
  | Op.send v => (q.send v, none)
  | Op.receive =>
    match q.receive with
    | some (m, q1) => (q1, some m)
    | none => (q, none)

/-- Mailbox state after a finite sequence of operations. -/
def runOps {T : Type} (q : MessageQueue T) (ops : List (Op T)) : MessageQueue T :=
  ops.foldl (fun s op => (applyOp s op).1) q

/-- Values returned to the callers of `receive` over a sequence of operations,
in order. -/
def returnsOf {T : Type} (q : MessageQueue T) : List (Op T) → List T
  | [] => []
  | op :: ops =>
    match (applyOp q op).2 with
    | some m => m :: returnsOf (applyOp q op).1 ops
    | none => returnsOf (applyOp q op).1 ops

/-- Modelled from the spec: the class is declared in `TrafficLight.h`, which is
not among the sources; the code uses the members `_currentPhase` and
`_msgQueue` (the thread list of the base class carries no phase data). -/
structure TrafficLight where
  _currentPhase : TrafficLightPhase
  _msgQueue : MessageQueue TrafficLightPhase
  deriving DecidableEq, Repr

namespace TrafficLight

open TrafficLightPhase

/-- The constructor `TrafficLight::TrafficLight`, lines 32-35. -/
def init : TrafficLight :=
  { _currentPhase := red, _msgQueue := MessageQueue.fresh }

/-- `TrafficLight::getCurrentPhase`, lines 50-53. -/
def getCurrentPhase (tl : TrafficLight) : TrafficLightPhase :=
  tl._currentPhase

/-- The phase change of `cycleThroughPhases`, lines 88-92: flip
`_currentPhase`, copy it to `cur_phase`, send `cur_phase`.  The second
component is the message handed to `send`. -/
def changePhase (tl : TrafficLight) : TrafficLight × TrafficLightPhase :=
  let tl1 := { tl with _currentPhase := if tl._currentPhase = red then green else red }
  let cur_phase := tl1._currentPhase
  ({ tl1 with _msgQueue := tl1._msgQueue.send cur_phase }, cur_phase)

/-- The test of `waitForGreen`, line 44, on the message `light_color` that
`receive` returned: `true` means the method returns, `false` means the loop
goes round again. -/
def waitForGreenBody (light_color : TrafficLightPhase) : Bool :=
  decide (light_color = green)

/-- One attempt at an iteration of the loop of `waitForGreen`, lines 42-47, on
the light: when `receive` is blocked nothing happens; otherwise the message is
taken out of the mailbox and tested.  The flag tells whether the method has
returned. -/
def waitForGreenIter (tl : TrafficLight) : TrafficLight × Bool :=
  match tl._msgQueue.receive with
  | none => (tl, false)
  | some (light_color, q) => ({ tl with _msgQueue := q }, waitForGreenBody light_color)

/-- The loop of `waitForGreen`, lines 42-47, against the sequence of messages
its calls of `receive` return (`delivered i` is the message of the call number
`i`), started at call number `i` and cut after `fuel` iterations.  `some n`:
the method returned after `n` calls of `receive` in all; `none`: it has not
returned within the fuel. -/
def waitForGreenFrom (delivered : Nat → TrafficLightPhase) : Nat → Nat → Option Nat
  | 0, _ => none
  | fuel + 1, i =>
    if waitForGreenBody (delivered i) then some (i + 1)
    else waitForGreenFrom delivered fuel (i + 1)

/-- `TrafficLight::waitForGreen` against a sequence of delivered messages. -/
def waitForGreen (delivered : Nat → TrafficLightPhase) (fuel : Nat) : Option Nat :=
  waitForGreenFrom delivered fuel 0

end TrafficLight

/-- Local variables of `cycleThroughPhases` that live across iterations of its
loop, with the light.  `light_duration` is a finite `double`, hence a rational
number of seconds; `t0` is a reading of `system_clock`, a whole number of clock
ticks. -/
structure TimerState where
  light : TrafficLight
  light_duration : ℚ
  t0 : ℤ
  deriving DecidableEq

/-- What one iteration of the loop of `cycleThroughPhases` reads from outside:
`t1` the clock at line 83, `draw` the value of `distribution(gen)` at line 95,
`t2` the clock at line 96 (the last two are used only when the timer has
expired).  Clock readings are in ticks. -/
structure PollInput where
  t1 : ℤ
  draw : ℚ
  t2 : ℤ
  deriving DecidableEq

/-- One iteration of the loop of `cycleThroughPhases`, lines 81-99.  The second
component is the message sent to the mailbox, if any.

Line 84 turns the tick difference `t1 - t0` into a
`std::chrono::duration<double>` in seconds, and line 86 compares its `count()`
with `light_duration`.  That conversion belongs to the standard library: the
tick period of `system_clock` is fixed by the implementation and the result is
rounded to a `double`.  It is the parameter `seconds`, so that
`seconds (t1 - t0)` is the value of `elapsed_seconds.count()`. -/
def cycleThroughPhasesIter (seconds : ℤ → ℚ) (s : TimerState) (i : PollInput) :
    TimerState × Option TrafficLightPhase :=
  let elapsed_seconds := seconds (i.t1 - s.t0)
  if elapsed_seconds > s.light_duration then
    let r := s.light.changePhase
    ({ light := r.1, light_duration := i.draw, t0 := i.t2 }, some r.2)
  else
    (s, none)

/-- The loop of `cycleThroughPhases` over finitely many iterations, with the
messages it sent, in order. -/
def cycleThroughPhasesRun (seconds : ℤ → ℚ) (s : TimerState) :
    List PollInput → TimerState × List TrafficLightPhase
  | [] => (s, [])
  | i :: is =>
    let r := cycleThroughPhasesIter seconds s i
    let rest := cycleThroughPhasesRun seconds r.1 is
    match r.2 with
    | some p => (rest.1, p :: rest.2)
    | none => rest

/-- The quotient of a tick count by `10^9`, without rounding.  For a clock that
ticks in nanoseconds it is the value of the conversion of line 84 on every tick
count which, like its quotient, is a `double` (whole seconds below `2^53`
ticks, for one); it is used at such tick counts only. -/
def exactSeconds (ticks : ℤ) : ℚ :=
  (ticks : ℚ) / 1000000000

/-- Steps of the threads around one light when the phase change of the timer,
lines 88-92, is taken as one atomic step `toggle` (the write of `_currentPhase`
together with the send): the other two steps are an iteration of the loop of
`waitForGreen` by the observed caller and a `receive` by some other thread. -/
inductive Event where
  | toggle
  | waiter
  | receiver
  deriving DecidableEq, Repr

/-- The light together with the observed caller of `waitForGreen`: `returned`
says whether that call has returned. -/
structure Sys where
  light : TrafficLight
  returned : Bool
  deriving DecidableEq, Repr

namespace Sys

/-- One step, the phase change being atomic. -/
def step (s : Sys) : Event → Sys
  | Event.toggle => { s with light := s.light.changePhase.1 }
  | Event.waiter =>
    if s.returned then s
    else
      let r := s.light.waitForGreenIter
      { light := r.1, returned := r.2 }
  | Event.receiver =>
    match s.light._msgQueue.receive with
    | none => s
    | some (_, q) => { s with light := { s.light with _msgQueue := q } }

/-- A finite interleaving of such steps. -/
def run (s : Sys) (sched : List Event) : Sys :=
  sched.foldl step s

end Sys

namespace TrafficLight

open TrafficLightPhase

/-- Line 88 of `cycleThroughPhases` alone: the write of `_currentPhase`, which
is not under the mutex of the mailbox. -/
def writePhase (tl : TrafficLight) : TrafficLight :=
  { tl with _currentPhase := if tl._currentPhase = red then green else red }

/-- Lines 91-92 of `cycleThroughPhases`: copy `_currentPhase` to `cur_phase`
and send it.  Only the timer thread writes `_currentPhase`, so the copy is the
value it wrote at line 88.  The second component is the message sent. -/
def sendPhase (tl : TrafficLight) : TrafficLight × TrafficLightPhase :=
  let cur_phase := tl._currentPhase
  ({ tl with _msgQueue := tl._msgQueue.send cur_phase }, cur_phase)

end TrafficLight

/-- Steps of the threads around one light as the source orders them: `timer`
is the next step of the one timer thread inside its phase change (line 88, or
lines 91-92 when line 88 is done), `waiter` an iteration of the loop of
`waitForGreen` by the observed caller, `receiver` a `receive` by some other
thread.  The bodies of `send` and `receive` are atomic, being under the
mutex. -/
inductive Step where
  | timer
  | waiter
  | receiver
  deriving DecidableEq, Repr

/-- The light with its threads: `sending` says that the timer thread has done
line 88 and not yet the send of line 92, `sent` lists the messages sent so far,
`returned` says whether the observed call of `waitForGreen` has returned. -/
structure Threads where
  light : TrafficLight
  sending : Bool
  sent : List TrafficLightPhase
  returned : Bool
  deriving DecidableEq, Repr

namespace Threads

/-- One step of one thread. -/
def step (s : Threads) : Step → Threads
  | Step.timer =>
    if s.sending then
      let r := s.light.sendPhase
      { s with light := r.1, sending := false, sent := s.sent ++ [r.2] }
    else
      { s with light := s.light.writePhase, sending := true }
  | Step.waiter =>
    if s.returned then s
    else
      let r := s.light.waitForGreenIter
      { s with light := r.1, returned := r.2 }
  | Step.receiver =>
    match s.light._msgQueue.receive with
    | none => s
    | some (_, q) => { s with light := { s.light with _msgQueue := q } }

/-- A finite interleaving of steps. -/
def run (s : Threads) (sched : List Step) : Threads :=
  sched.foldl step s

/-- A newly constructed light, its timer thread outside a phase change, nothing
sent, the observed call not returned. -/
def start : Threads :=
  { light := TrafficLight.init, sending := false, sent := [], returned := false }

end Threads

/-- The sequence `p, q, p, q, ...` of length `n`. -/
def alternatingFrom (p q : TrafficLightPhase) : Nat → List TrafficLightPhase
  | 0 => []
  | n + 1 => p :: alternatingFrom q p n

/-! ## Mailbox -/

section Mailbox

variable {T : Type}

open MessageQueue

theorem send_queue (q : MessageQueue T) (v : T) : (q.send v)._queue = [v] := by
  simp [MessageQueue.send, MessageQueue.clear, MessageQueue.emplace_back]

theorem send_eq (q : MessageQueue T) (v : T) : q.send v = ⟨[v]⟩ := by
  simp [MessageQueue.send, MessageQueue.clear, MessageQueue.emplace_back]

theorem receive_nil (q : MessageQueue T) (h : q._queue = []) : q.receive = none := by
  cases q with
  | mk l => subst h; rfl

theorem receive_singleton (v : T) : (⟨[v]⟩ : MessageQueue T).receive = some (v, ⟨[]⟩) := by
  rfl

theorem receive_some_iff (q : MessageQueue T) (v : T) (q1 : MessageQueue T) :
    q.receive = some (v, q1) ↔ q._queue.getLast? = some v ∧ q1 = ⟨[]⟩ := by
  cases q with
  | mk l =>
    cases l with
    | nil => simp [MessageQueue.receive]
    | cons x xs =>
      simp [MessageQueue.receive, MessageQueue.clear, List.getLast?_eq_getLast, eq_comm]

theorem runOps_snoc (q : MessageQueue T) (a : List (Op T)) (op : Op T) :
    runOps q (a ++ [op]) = (applyOp (runOps q a) op).1 := by
  simp [runOps, List.foldl_append]

theorem applyOp_receive_queue (q : MessageQueue T) :
    (applyOp q Op.receive).1._queue = [] := by
  cases q with
  | mk l =>
    cases l with
    | nil => rfl
    | cons x xs => rfl

/-- State of the mailbox after a history that starts from the empty mailbox:
it is empty, or the history ends with a send and the mailbox holds exactly the
value of that send. -/
theorem runOps_fresh_shape (ops : List (Op T)) :
    (runOps (fresh : MessageQueue T) ops)._queue = [] ∨
      ∃ a v, ops = a ++ [Op.send v] ∧ (runOps (fresh : MessageQueue T) ops)._queue = [v] := by
  induction ops using List.reverseRecOn with
  | nil => left; rfl
  | append_singleton a op _ =>
    rw [runOps_snoc]
    cases op with
    | send v => right; exact ⟨a, v, rfl, by simp [applyOp, send_queue]⟩
    | receive => left; exact applyOp_receive_queue _

theorem returnsOf_mem (ops : List (Op T)) :
    ∀ (q : MessageQueue T) (v : T), v ∈ returnsOf q ops → v ∈ q._queue ∨ Op.send v ∈ ops := by
  induction ops with
  | nil => intro q v h; simp [returnsOf] at h
  | cons op ops ih =>
    intro q v h
    cases op with
    | send w =>
      simp only [returnsOf, applyOp] at h
      rcases ih _ v h with h1 | h1
      · rw [send_queue] at h1
        simp at h1
        subst h1
        right; simp
      · right; simp [h1]
    | receive =>
      cases q with
      | mk l =>
        cases l with
        | nil =>
          simp only [returnsOf, applyOp, MessageQueue.receive] at h
          rcases ih _ v h with h1 | h1
          · simp at h1
          · right; simp [h1]
        | cons x xs =>
          simp only [returnsOf, applyOp, MessageQueue.receive, MessageQueue.clear,
            List.mem_cons] at h
          rcases h with h | h
          · left; rw [h]; exact List.getLast_mem _
          · rcases ih _ v h with h1 | h1
            · simp at h1
            · right; simp [h1]

theorem returnsOf_replicate_receive (n : Nat) (q : MessageQueue T) :
    returnsOf q (List.replicate n Op.receive) =
      match n, q.receive with
      | 0, _ => []
      | _ + 1, none => []
      | _ + 1, some (v, _) => [v] := by
  have hnil : ∀ m : Nat, returnsOf (⟨[]⟩ : MessageQueue T) (List.replicate m Op.receive) = [] := by
    intro m
    induction m with
    | zero => rfl
    | succ m ih => simpa [List.replicate_succ, returnsOf, applyOp, MessageQueue.receive] using ih
  cases n with
  | zero => rfl
  | succ n =>
    cases q with
    | mk l =>
      cases l with
      | nil => simpa [MessageQueue.receive] using hnil (n + 1)
      | cons x xs =>
        simp [List.replicate_succ, returnsOf, applyOp, MessageQueue.receive, MessageQueue.clear,
          hnil n]

/-- C1: from any mailbox state, after `send v1` then `send v2` with no receive
in between, the next `receive` returns `v2` (and leaves the mailbox empty); in
the history `send v1, send v2, receive` the only value returned is `v2`, and it
is not `v1` whenever the two differ. -/
theorem send_send_receive_last_wins (q : MessageQueue T) (v1 v2 : T) :
    ((q.send v1).send v2).receive = some (v2, fresh) ∧
      returnsOf q [Op.send v1, Op.send v2, Op.receive] = [v2] ∧
      (v1 ≠ v2 → ∀ r, ((q.send v1).send v2).receive = some r → r.1 ≠ v1) := by
  have h : ((q.send v1).send v2).receive = some (v2, fresh) := by
    rw [send_eq]; rfl
  refine ⟨h, ?_, ?_⟩
  · simp [returnsOf, applyOp, h]
  · intro hne r hr
    rw [h] at hr
    cases hr
    exact fun e => hne e.symm

theorem send_send_receive_last_wins_witness :
    (((fresh : MessageQueue Nat).send 1).send 2).receive = some (2, fresh) ∧
      ((1 : Nat) ≠ 2 ∧ ∀ r, (((fresh : MessageQueue Nat).send 1).send 2).receive = some r →
        r.1 ≠ 1) :=
  ⟨(send_send_receive_last_wins fresh 1 2).1, by decide,
    (send_send_receive_last_wins fresh 1 2).2.2 (by decide)⟩

/-- C2: starting from the empty mailbox, after every finite sequence of sends
and receives the mailbox holds at most one value, and right after a send it
holds exactly the value just sent, whatever was pending before. -/
theorem mailbox_holds_at_most_one (ops : List (Op T)) :
    (runOps (fresh : MessageQueue T) ops)._queue.length ≤ 1 ∧
      ∀ v : T, (runOps (fresh : MessageQueue T) (ops ++ [Op.send v]))._queue = [v] := by
  constructor
  · rcases runOps_fresh_shape ops with h | ⟨_, v, _, h⟩ <;> simp [h]
  · intro v
    rw [runOps_snoc]
    simp [applyOp, send_queue]

/-- C3: in a history that starts from the empty mailbox, every value returned
by a `receive` is the argument of a send of that history, and a `receive` that
returns `v` after the operations `pre` has a send of `v` in `pre` with no later
send in `pre` (the most recent send). -/
theorem receive_returns_most_recent_send (ops : List (Op T)) :
    (∀ v ∈ returnsOf (fresh : MessageQueue T) ops, Op.send v ∈ ops) ∧
      ∀ (pre post : List (Op T)) (v : T), ops = pre ++ Op.receive :: post →
        (applyOp (runOps (fresh : MessageQueue T) pre) Op.receive).2 = some v →
        ∃ a b, pre = a ++ Op.send v :: b ∧ ∀ w : T, Op.send w ∉ b := by
  constructor
  · intro v hv
    rcases returnsOf_mem ops fresh v hv with h | h
    · simp [fresh] at h
    · exact h
  · intro pre post v _ hret
    rcases runOps_fresh_shape pre with h | ⟨a, w, hpre, h⟩
    · simp [applyOp, receive_nil _ h] at hret
    · have hq : runOps (fresh : MessageQueue T) pre = ⟨[w]⟩ := by
        cases hr : runOps (fresh : MessageQueue T) pre with
        | mk l => rw [hr] at h; simp at h; rw [h]
      rw [hq] at hret
      simp [applyOp, receive_singleton] at hret
      subst hret
      exact ⟨a, [], by simpa using hpre, by simp⟩

theorem receive_returns_most_recent_send_witness :
    returnsOf (fresh : MessageQueue Nat) [Op.send 4, Op.send 7, Op.receive, Op.receive] = [7] ∧
      ∃ a b, [Op.send 4, Op.send 7] = a ++ Op.send 7 :: b ∧ ∀ w : Nat, Op.send w ∉ b :=
  ⟨by decide,
    (receive_returns_most_recent_send [Op.send 4, Op.send 7, Op.receive, Op.receive]).2
      [Op.send 4, Op.send 7] [Op.receive] 7 rfl (by decide)⟩

/-- C4: `receive` does not return on an empty mailbox; when it returns, the
mailbox was not empty and is left empty, so the next `receive` does not return;
any number of receives in a row, with no send among them, return at most one
value. -/
theorem receive_needs_value_and_consumes (q : MessageQueue T) :
    (q._queue = [] → q.receive = none) ∧
      (∀ (v : T) (q1 : MessageQueue T), q.receive = some (v, q1) →
        q._queue ≠ [] ∧ q1._queue = [] ∧ q1.receive = none) ∧
      ∀ n : Nat, (returnsOf q (List.replicate n Op.receive)).length ≤ 1 := by
  refine ⟨receive_nil q, ?_, ?_⟩
  · intro v q1 h
    have h2 := (receive_some_iff q v q1).1 h
    refine ⟨?_, by rw [h2.2], by rw [h2.2]; rfl⟩
    intro hq
    rw [receive_nil q hq] at h
    cases h
  · intro n
    rw [returnsOf_replicate_receive]
    split <;> simp

theorem receive_needs_value_and_consumes_witness :
    (fresh : MessageQueue Nat).receive = none ∧
      (((fresh : MessageQueue Nat).send 5)._queue ≠ [] ∧ (fresh : MessageQueue Nat)._queue = [] ∧
        (fresh : MessageQueue Nat).receive = none) ∧
      returnsOf ((fresh : MessageQueue Nat).send 5) [Op.receive, Op.receive] = [5] :=
  ⟨(receive_needs_value_and_consumes (fresh : MessageQueue Nat)).1 rfl,
    (receive_needs_value_and_consumes ((fresh : MessageQueue Nat).send 5)).2.1 5 fresh rfl,
    by decide⟩

end Mailbox

/-! ## Waiting for green -/

section Waiting

open TrafficLight TrafficLightPhase

theorem waitForGreenBody_eq_false (c : TrafficLightPhase) :
    waitForGreenBody c = false ↔ c = red := by
  cases c <;> simp [waitForGreenBody]

theorem waitForGreenBody_eq_true (c : TrafficLightPhase) :
    waitForGreenBody c = true ↔ c = green := by
  cases c <;> simp [waitForGreenBody]

theorem waitForGreenFrom_eq_some (delivered : Nat → TrafficLightPhase) :
    ∀ (fuel i n : Nat), waitForGreenFrom delivered fuel i = some n ↔
      ∃ m, n = m + 1 ∧ i ≤ m ∧ m < i + fuel ∧ delivered m = green ∧
        ∀ j, i ≤ j → j < m → delivered j = red := by
  intro fuel
  induction fuel with
  | zero =>
    intro i n
    simp only [waitForGreenFrom]
    constructor
    · intro h
      cases h
    · rintro ⟨m, _, h1, h2, _⟩
      omega
  | succ fuel ih =>
    intro i n
    simp only [waitForGreenFrom]
    cases hb : waitForGreenBody (delivered i) with
    | true =>
      have hg := (waitForGreenBody_eq_true _).1 hb
      simp only [if_true, Option.some.injEq]
      constructor
      · intro h
        exact ⟨i, h.symm, le_refl _, by omega, hg, fun j h1 h2 => by omega⟩
      · rintro ⟨m, hn, h1, _, _, h4⟩
        rcases Nat.lt_or_ge i m with hlt | hge
        · have := h4 i (le_refl _) hlt
          rw [hg] at this
          cases this
        · have : m = i := by omega
          rw [hn, this]
    | false =>
      have hr := (waitForGreenBody_eq_false _).1 hb
      simp only [Bool.false_eq_true, if_false]
      rw [ih]
      constructor
      · rintro ⟨m, hn, h1, h2, h3, h4⟩
        refine ⟨m, hn, by omega, by omega, h3, ?_⟩
        intro j hj1 hj2
        rcases Nat.eq_or_lt_of_le hj1 with he | hl
        · rw [← he]; exact hr
        · exact h4 j hl hj2
      · rintro ⟨m, hn, h1, h2, h3, h4⟩
        have hne : m ≠ i := by
          intro he
          rw [he, hr] at h3
          cases h3
        exact ⟨m, hn, by omega, by omega, h3, fun j hj1 hj2 => h4 j (by omega) hj2⟩

/-- C5: against any sequence of delivered phases, `waitForGreen` returns after
`n` receives exactly when the last of them, number `n - 1`, is the first green
one: every phase received before is red and is dropped, so it never returns on
a red phase.  If no green is ever delivered it does not return, whatever the
fuel; if the first green is delivery number `m`, it returns after `m + 1`
receives as soon as the fuel exceeds `m`. -/
theorem waitForGreen_returns_on_first_green (delivered : Nat → TrafficLightPhase) :
    (∀ fuel n : Nat, waitForGreen delivered fuel = some n ↔
      ∃ m, n = m + 1 ∧ m < fuel ∧ delivered m = green ∧ ∀ j, j < m → delivered j = red) ∧
    ((∀ j, delivered j = red) → ∀ fuel : Nat, waitForGreen delivered fuel = none) ∧
    (∀ m : Nat, delivered m = green → (∀ j, j < m → delivered j = red) →
      ∀ fuel : Nat, m < fuel → waitForGreen delivered fuel = some (m + 1)) := by
  have key : ∀ fuel n : Nat, waitForGreen delivered fuel = some n ↔
      ∃ m, n = m + 1 ∧ m < fuel ∧ delivered m = green ∧ ∀ j, j < m → delivered j = red := by
    intro fuel n
    unfold waitForGreen
    rw [waitForGreenFrom_eq_some]
    constructor
    · rintro ⟨m, hn, _, h2, h3, h4⟩
      exact ⟨m, hn, by omega, h3, fun j hj => h4 j (Nat.zero_le _) hj⟩
    · rintro ⟨m, hn, h2, h3, h4⟩
      exact ⟨m, hn, Nat.zero_le _, by omega, h3, fun j _ hj => h4 j hj⟩
  refine ⟨key, ?_, ?_⟩
  · intro hall fuel
    cases h : waitForGreen delivered fuel with
    | none => rfl
    | some n =>
      rcases (key fuel n).1 h with ⟨m, _, _, hg, _⟩
      rw [hall m] at hg
      cases hg
  · intro m hg hbefore fuel hf
    exact (key fuel (m + 1)).2 ⟨m, rfl, hf, hg, hbefore⟩

theorem waitForGreen_returns_on_first_green_witness :
    waitForGreen (fun k => if k = 2 then green else red) 5 = some 3 ∧
      ∀ fuel : Nat, waitForGreen (fun _ => red) fuel = none :=
  ⟨(waitForGreen_returns_on_first_green (fun k => if k = 2 then green else red)).2.2 2
      (by decide) (fun j hj => by simp; omega) 5 (by decide),
    (waitForGreen_returns_on_first_green (fun _ => red)).2.1 (fun _ => rfl)⟩

end Waiting

/-! ## Timer task -/

section Timer

open TrafficLight TrafficLightPhase

theorem changePhase_phase (tl : TrafficLight) :
    tl.changePhase.1._currentPhase = (if tl._currentPhase = red then green else red) := by
  rfl

theorem changePhase_sent (tl : TrafficLight) :
    tl.changePhase.2 = tl.changePhase.1._currentPhase := by
  rfl

theorem changePhase_queue (tl : TrafficLight) :
    tl.changePhase.1._msgQueue._queue = [tl.changePhase.1._currentPhase] := by
  simp [changePhase, send_queue]

theorem alternatingFrom_getElem? (n : Nat) :
    ∀ (p q : TrafficLightPhase) (k : Nat), k < n →
      (alternatingFrom p q n)[k]? = some (if k % 2 = 0 then p else q) := by
  induction n with
  | zero => intro p q k hk; omega
  | succ n ih =>
    intro p q k hk
    cases k with
    | zero => simp [alternatingFrom]
    | succ k =>
      simp only [alternatingFrom, List.getElem?_cons_succ]
      rw [ih q p k (by omega)]
      rcases Nat.mod_two_eq_zero_or_one k with h | h
      · have h2 : (k + 1) % 2 = 1 := by omega
        simp [h, h2]
      · have h2 : (k + 1) % 2 = 0 := by omega
        simp [h, h2]

theorem alternatingFrom_chain (n : Nat) :
    ∀ p q : TrafficLightPhase, p ≠ q → List.Chain' (fun a b => a ≠ b) (alternatingFrom p q n) := by
  induction n with
  | zero => intro p q _; simp [alternatingFrom]
  | succ n ih =>
    intro p q hpq
    simp only [alternatingFrom]
    rw [List.chain'_cons']
    refine ⟨?_, ih q p (Ne.symm hpq)⟩
    intro y hy
    cases n with
    | zero => simp [alternatingFrom] at hy
    | succ n =>
      simp [alternatingFrom] at hy
      rw [← hy]
      exact hpq

theorem cycleThroughPhasesIter_expired (seconds : ℤ → ℚ) (s : TimerState) (i : PollInput)
    (h : seconds (i.t1 - s.t0) > s.light_duration) :
    cycleThroughPhasesIter seconds s i =
      (⟨s.light.changePhase.1, i.draw, i.t2⟩, some s.light.changePhase.2) := by
  unfold cycleThroughPhasesIter
  exact if_pos h

theorem cycleThroughPhasesIter_running (seconds : ℤ → ℚ) (s : TimerState) (i : PollInput)
    (h : ¬ seconds (i.t1 - s.t0) > s.light_duration) :
    cycleThroughPhasesIter seconds s i = (s, none) := by
  unfold cycleThroughPhasesIter
  exact if_neg h

theorem cycleThroughPhasesRun_expired (seconds : ℤ → ℚ) (s : TimerState) (i : PollInput)
    (is : List PollInput) (h : seconds (i.t1 - s.t0) > s.light_duration) :
    cycleThroughPhasesRun seconds s (i :: is) =
      ((cycleThroughPhasesRun seconds ⟨s.light.changePhase.1, i.draw, i.t2⟩ is).1,
        s.light.changePhase.2 ::
          (cycleThroughPhasesRun seconds ⟨s.light.changePhase.1, i.draw, i.t2⟩ is).2) := by
  simp only [cycleThroughPhasesRun, cycleThroughPhasesIter_expired seconds s i h]

theorem cycleThroughPhasesRun_running (seconds : ℤ → ℚ) (s : TimerState) (i : PollInput)
    (is : List PollInput) (h : ¬ seconds (i.t1 - s.t0) > s.light_duration) :
    cycleThroughPhasesRun seconds s (i :: is) = cycleThroughPhasesRun seconds s is := by
  simp only [cycleThroughPhasesRun, cycleThroughPhasesIter_running seconds s i h]

/-- The messages sent by the timer loop, from a light whose phase is `p`, are
the other phase, then `p`, and so on. -/
theorem cycleThroughPhasesRun_log (seconds : ℤ → ℚ) (inputs : List PollInput) :
    ∀ s : TimerState,
      (cycleThroughPhasesRun seconds s inputs).2 =
        alternatingFrom (if s.light._currentPhase = red then green else red)
          s.light._currentPhase (cycleThroughPhasesRun seconds s inputs).2.length := by
  induction inputs with
  | nil => intro s; rfl
  | cons i is ih =>
    intro s
    by_cases h : seconds (i.t1 - s.t0) > s.light_duration
    · rw [cycleThroughPhasesRun_expired seconds s i is h]
      have ih1 := ih ⟨s.light.changePhase.1, i.draw, i.t2⟩
      simp only [List.length_cons, alternatingFrom]
      rw [← changePhase_phase, ← changePhase_sent]
      congr 1
      have hflip : (if s.light.changePhase.1._currentPhase = red then green else red) =
          s.light._currentPhase := by
        rw [changePhase_phase]
        cases s.light._currentPhase <;> simp
      rw [hflip] at ih1
      exact ih1
    · rw [cycleThroughPhasesRun_running seconds s i is h]
      exact ih s

/-- When the conversion of tick counts exceeds every duration, the timer loop
can be made to send any number of messages. -/
theorem cycleThroughPhasesRun_any_length (seconds : ℤ → ℚ)
    (hunb : ∀ x : ℚ, ∃ n : ℤ, x < seconds n) (N : Nat) :
    ∀ s : TimerState, ∃ ins : List PollInput,
      (cycleThroughPhasesRun seconds s ins).2.length = N := by
  induction N with
  | zero => intro s; exact ⟨[], rfl⟩
  | succ N ih =>
    intro s
    rcases hunb s.light_duration with ⟨n, hn⟩
    rcases ih ⟨s.light.changePhase.1, 5, s.t0 + n⟩ with ⟨ins, hins⟩
    refine ⟨⟨s.t0 + n, 5, s.t0 + n⟩ :: ins, ?_⟩
    have h : seconds (s.t0 + n - s.t0) > s.light_duration := by
      rw [add_sub_cancel_left]; exact hn
    rw [cycleThroughPhasesRun_expired seconds s ⟨s.t0 + n, 5, s.t0 + n⟩ ins h]
    simp [hins]

theorem exactSeconds_unbounded : ∀ x : ℚ, ∃ n : ℤ, x < exactSeconds n := by
  intro x
  rcases exists_int_gt x with ⟨z, hz⟩
  refine ⟨z * 1000000000, ?_⟩
  have : exactSeconds (z * 1000000000) = (z : ℚ) := by
    unfold exactSeconds
    push_cast
    field_simp
  rw [this]
  exact hz

theorem exactSeconds_six : exactSeconds (6000000000 - 0) = 6 := by
  unfold exactSeconds
  norm_num

theorem exactSeconds_five : exactSeconds (5000000000 - 0) = 5 := by
  unfold exactSeconds
  norm_num

/-- C6, the claim as stated fails: from a newly constructed light (phase
red), on a clock that ticks in nanoseconds, with a first duration of 5 seconds
and the clock read after 6 seconds, the first phase published is green, not
red. -/
theorem first_published_phase_is_green :
    (cycleThroughPhasesRun exactSeconds ⟨TrafficLight.init, 5, 0⟩
        [⟨6000000000, 5, 6000000000⟩]).2 = [green] ∧
      (cycleThroughPhasesRun exactSeconds ⟨TrafficLight.init, 5, 0⟩
        [⟨6000000000, 5, 6000000000⟩]).2[0]? ≠ some red := by
  have h : (cycleThroughPhasesRun exactSeconds ⟨TrafficLight.init, 5, 0⟩
      [⟨6000000000, 5, 6000000000⟩]).2 = [green] := by
    rw [cycleThroughPhasesRun_expired exactSeconds _ _ _ (by rw [exactSeconds_six]; norm_num)]
    rfl
  rw [h]
  exact ⟨rfl, by decide⟩

/-- C6, amended: for a newly constructed light driven by one timer task,
whatever the clock readings, the drawn durations and the conversion of ticks to
seconds, the published phases are `green, red, green, red, ...` (publication
number `k`, counted from 0, is green when `k` is even and red when `k` is odd),
so no two consecutive published phases are equal; and, the conversion of tick
counts exceeding every duration, for every `N` there are clock readings under
which `N` toggles happen. -/
theorem published_phases_alternate (seconds : ℤ → ℚ) (d : ℚ) (t0 : ℤ)
    (inputs : List PollInput) :
    (∀ k : Nat, k < (cycleThroughPhasesRun seconds ⟨TrafficLight.init, d, t0⟩ inputs).2.length →
      (cycleThroughPhasesRun seconds ⟨TrafficLight.init, d, t0⟩ inputs).2[k]? =
        some (if k % 2 = 0 then green else red)) ∧
    List.Chain' (fun a b => a ≠ b)
      (cycleThroughPhasesRun seconds ⟨TrafficLight.init, d, t0⟩ inputs).2 ∧
    ((∀ x : ℚ, ∃ n : ℤ, x < seconds n) → ∀ N : Nat, ∃ ins : List PollInput,
      (cycleThroughPhasesRun seconds ⟨TrafficLight.init, d, t0⟩ ins).2.length = N) := by
  have hlog := cycleThroughPhasesRun_log seconds inputs ⟨TrafficLight.init, d, t0⟩
  have hinit : TrafficLight.init._currentPhase = red := rfl
  simp only [hinit, if_true] at hlog
  refine ⟨?_, ?_, ?_⟩
  · intro k hk
    rw [hlog, alternatingFrom_getElem? _ green red k hk]
  · rw [hlog]
    exact alternatingFrom_chain _ green red (by decide)
  · intro hunb N
    exact cycleThroughPhasesRun_any_length seconds hunb N _

theorem published_phases_alternate_witness :
    (0 < (cycleThroughPhasesRun exactSeconds ⟨TrafficLight.init, 5, 0⟩
        [⟨6000000000, 5, 6000000000⟩]).2.length ∧
      (cycleThroughPhasesRun exactSeconds ⟨TrafficLight.init, 5, 0⟩
        [⟨6000000000, 5, 6000000000⟩]).2[0]? = some (if 0 % 2 = 0 then green else red)) ∧
    ((∀ x : ℚ, ∃ n : ℤ, x < exactSeconds n) ∧
      ∃ ins : List PollInput,
        (cycleThroughPhasesRun exactSeconds ⟨TrafficLight.init, 5, 0⟩ ins).2.length = 3) := by
  have hlen : 0 < (cycleThroughPhasesRun exactSeconds ⟨TrafficLight.init, 5, 0⟩
      [⟨6000000000, 5, 6000000000⟩]).2.length := by
    rw [cycleThroughPhasesRun_expired exactSeconds _ _ _ (by rw [exactSeconds_six]; norm_num)]
    simp
  exact ⟨⟨hlen,
      (published_phases_alternate exactSeconds 5 0 [⟨6000000000, 5, 6000000000⟩]).1 0 hlen⟩,
    exactSeconds_unbounded,
    (published_phases_alternate exactSeconds 5 0 []).2.2 exactSeconds_unbounded 3⟩

/-- C9: one poll iteration, with `e` the elapsed time that line 84 computes
(the tick difference `t1 - t0` converted to seconds) and `d` the duration.  If
`e > d` the phase is flipped, the mailbox holds exactly the new phase (it was
sent), the duration is the newly drawn one and the start timestamp is the new
clock reading.  If `e ≤ d` the whole state (phase, mailbox, duration, start
timestamp) is unchanged and nothing is sent.  The phase differs after the
iteration exactly when `e > d`. -/
theorem poll_iteration_effect (seconds : ℤ → ℚ) (s : TimerState) (i : PollInput) :
    (seconds (i.t1 - s.t0) > s.light_duration →
      (cycleThroughPhasesIter seconds s i).1.light._currentPhase =
          (if s.light._currentPhase = red then green else red) ∧
        (cycleThroughPhasesIter seconds s i).1.light._msgQueue =
          s.light._msgQueue.send (if s.light._currentPhase = red then green else red) ∧
        (cycleThroughPhasesIter seconds s i).1.light._msgQueue._queue =
          [(cycleThroughPhasesIter seconds s i).1.light._currentPhase] ∧
        (cycleThroughPhasesIter seconds s i).2 =
          some (if s.light._currentPhase = red then green else red) ∧
        (cycleThroughPhasesIter seconds s i).1.light_duration = i.draw ∧
        (cycleThroughPhasesIter seconds s i).1.t0 = i.t2) ∧
    (seconds (i.t1 - s.t0) ≤ s.light_duration → cycleThroughPhasesIter seconds s i = (s, none)) ∧
    ((cycleThroughPhasesIter seconds s i).1.light._currentPhase ≠ s.light._currentPhase ↔
      seconds (i.t1 - s.t0) > s.light_duration) := by
  by_cases h : seconds (i.t1 - s.t0) > s.light_duration
  · have hstep := cycleThroughPhasesIter_expired seconds s i h
    refine ⟨fun _ => ?_, fun h2 => absurd h (not_lt.mpr h2), ?_⟩
    · rw [hstep]
      refine ⟨rfl, rfl, ?_, rfl, rfl, rfl⟩
      simp [changePhase, send_queue]
    · rw [hstep]
      simp only [h, iff_true]
      show s.light.changePhase.1._currentPhase ≠ s.light._currentPhase
      rw [changePhase_phase]
      cases s.light._currentPhase <;> simp
  · have hstep := cycleThroughPhasesIter_running seconds s i h
    refine ⟨fun h2 => absurd h2 h, fun _ => hstep, ?_⟩
    rw [hstep]
    simp [h]

theorem poll_iteration_effect_witness :
    (exactSeconds (6000000000 - 0) > 5 ∧
      (cycleThroughPhasesIter exactSeconds ⟨TrafficLight.init, 5, 0⟩
        ⟨6000000000, 9 / 2, 6000000000⟩).1.light._currentPhase = green) ∧
    (exactSeconds (5000000000 - 0) ≤ 5 ∧
      cycleThroughPhasesIter exactSeconds ⟨TrafficLight.init, 5, 0⟩
          ⟨5000000000, 9 / 2, 5000000000⟩ =
        (⟨TrafficLight.init, 5, 0⟩, none)) :=
  ⟨⟨by rw [exactSeconds_six]; norm_num,
      ((poll_iteration_effect exactSeconds ⟨TrafficLight.init, 5, 0⟩
        ⟨6000000000, 9 / 2, 6000000000⟩).1 (by rw [exactSeconds_six]; norm_num)).1⟩,
    ⟨by rw [exactSeconds_five],
      (poll_iteration_effect exactSeconds ⟨TrafficLight.init, 5, 0⟩
        ⟨5000000000, 9 / 2, 5000000000⟩).2.1 (by rw [exactSeconds_five])⟩⟩

end Timer

/-! ## Timer, mailbox and callers together -/

section Interleaving

open TrafficLight TrafficLightPhase

theorem run_cons (s : Sys) (e : Event) (es : List Event) :
    Sys.run s (e :: es) = Sys.run (Sys.step s e) es := by
  rfl

theorem run_snoc (s : Sys) (es : List Event) (e : Event) :
    Sys.run s (es ++ [e]) = Sys.step (Sys.run s es) e := by
  simp [Sys.run, List.foldl_append]

/-- Mailbox invariant of the light: the mailbox is empty or holds exactly the
current phase. -/
theorem step_preserves_fresh_or_current (s : Sys) (e : Event)
    (h : s.light._msgQueue._queue = [] ∨ s.light._msgQueue._queue = [s.light._currentPhase]) :
    (Sys.step s e).light._msgQueue._queue = [] ∨
      (Sys.step s e).light._msgQueue._queue = [(Sys.step s e).light._currentPhase] := by
  rcases s with ⟨⟨p, ⟨l⟩⟩, r⟩
  simp only at h
  cases e with
  | toggle => right; exact changePhase_queue _
  | waiter =>
    cases r with
    | true => exact h
    | false =>
      rcases h with h | h <;> subst h <;> left <;> rfl
  | receiver =>
    rcases h with h | h <;> subst h <;> left <;> rfl

theorem threads_run_cons (s : Threads) (e : Step) (es : List Step) :
    Threads.run s (e :: es) = Threads.run (Threads.step s e) es := by
  rfl

theorem changePhase_eq_write_send (tl : TrafficLight) :
    tl.changePhase = tl.writePhase.sendPhase := by
  rfl

/-- A step sends at most one message and never withdraws one. -/
theorem threads_step_sent (s : Threads) (e : Step) :
    ∃ rest, (Threads.step s e).sent = s.sent ++ rest := by
  cases e with
  | timer =>
    cases hs : s.sending with
    | true => exact ⟨[s.light.sendPhase.2], by simp [Threads.step, hs]⟩
    | false => exact ⟨[], by simp [Threads.step, hs]⟩
  | waiter =>
    cases hr : s.returned with
    | true => exact ⟨[], by simp [Threads.step, hr]⟩
    | false => exact ⟨[], by simp [Threads.step, hr]⟩
  | receiver =>
    cases hq : s.light._msgQueue.receive with
    | none => exact ⟨[], by simp [Threads.step, hq]⟩
    | some r => exact ⟨[], by simp [Threads.step, hq]⟩

theorem threads_run_sent (sched : List Step) :
    ∀ s : Threads, ∃ rest, (Threads.run s sched).sent = s.sent ++ rest := by
  induction sched with
  | nil => intro s; exact ⟨[], by simp [Threads.run]⟩
  | cons e es ih =>
    intro s
    rw [threads_run_cons]
    rcases ih (Threads.step s e) with ⟨r2, h2⟩
    rcases threads_step_sent s e with ⟨r1, h1⟩
    exact ⟨r1 ++ r2, by rw [h2, h1, List.append_assoc]⟩

/-- The timer has sent red and written green, and has yet to send green; the
mailbox holds nothing but possibly that red: the observed caller cannot return
before green is sent. -/
theorem no_return_before_green_sent (sched : List Step) :
    ∀ (q : MessageQueue TrafficLightPhase) (log : List TrafficLightPhase),
      q._queue = [] ∨ q._queue = [red] →
      (Threads.run ⟨⟨green, q⟩, true, log ++ [red], false⟩ sched).returned = true →
      ∃ rest, (Threads.run ⟨⟨green, q⟩, true, log ++ [red], false⟩ sched).sent =
        log ++ red :: green :: rest := by
  induction sched with
  | nil => intro q log _ h; cases h
  | cons e es ih =>
    intro q log hq h
    rcases q with ⟨l⟩
    simp only at hq
    rw [threads_run_cons] at h ⊢
    cases e with
    | timer =>
      rcases threads_run_sent es
        (Threads.step ⟨⟨green, ⟨l⟩⟩, true, log ++ [red], false⟩ Step.timer) with ⟨rest, hrest⟩
      refine ⟨rest, ?_⟩
      rw [hrest]
      simp [Threads.step, TrafficLight.sendPhase]
    | waiter =>
      rcases hq with hq | hq <;> subst hq
      · exact ih ⟨[]⟩ log (Or.inl rfl) h
      · exact ih ⟨[]⟩ log (Or.inl rfl) h
    | receiver =>
      rcases hq with hq | hq <;> subst hq
      · exact ih ⟨[]⟩ log (Or.inl rfl) h
      · exact ih ⟨[]⟩ log (Or.inl rfl) h

/-- The timer has sent red and is outside a phase change; the mailbox holds
nothing but possibly that red. -/
theorem no_return_while_red_sent (sched : List Step) :
    ∀ (q : MessageQueue TrafficLightPhase) (log : List TrafficLightPhase),
      q._queue = [] ∨ q._queue = [red] →
      (Threads.run ⟨⟨red, q⟩, false, log ++ [red], false⟩ sched).returned = true →
      ∃ rest, (Threads.run ⟨⟨red, q⟩, false, log ++ [red], false⟩ sched).sent =
        log ++ red :: green :: rest := by
  induction sched with
  | nil => intro q log _ h; cases h
  | cons e es ih =>
    intro q log hq h
    rcases q with ⟨l⟩
    simp only at hq
    rw [threads_run_cons] at h ⊢
    cases e with
    | timer => exact no_return_before_green_sent es ⟨l⟩ log hq h
    | waiter =>
      rcases hq with hq | hq <;> subst hq
      · exact ih ⟨[]⟩ log (Or.inl rfl) h
      · exact ih ⟨[]⟩ log (Or.inl rfl) h
    | receiver =>
      rcases hq with hq | hq <;> subst hq
      · exact ih ⟨[]⟩ log (Or.inl rfl) h
      · exact ih ⟨[]⟩ log (Or.inl rfl) h

/-- The timer has written red and has yet to send it; the mailbox is empty. -/
theorem no_return_before_red_sent (sched : List Step) (log : List TrafficLightPhase) :
    (Threads.run ⟨⟨red, ⟨[]⟩⟩, true, log, false⟩ sched).returned = true →
      ∃ rest, (Threads.run ⟨⟨red, ⟨[]⟩⟩, true, log, false⟩ sched).sent =
        log ++ red :: green :: rest := by
  induction sched with
  | nil => intro h; cases h
  | cons e es ih =>
    intro h
    rw [threads_run_cons] at h ⊢
    cases e with
    | timer => exact no_return_while_red_sent es ⟨[red]⟩ log (Or.inr rfl) h
    | waiter => exact ih h
    | receiver => exact ih h

/-- The light is green, its mailbox empty and the timer outside a phase
change. -/
theorem no_return_before_red_then_green (sched : List Step) (log : List TrafficLightPhase) :
    (Threads.run ⟨⟨green, ⟨[]⟩⟩, false, log, false⟩ sched).returned = true →
      ∃ rest, (Threads.run ⟨⟨green, ⟨[]⟩⟩, false, log, false⟩ sched).sent =
        log ++ red :: green :: rest := by
  induction sched with
  | nil => intro h; cases h
  | cons e es ih =>
    intro h
    rw [threads_run_cons] at h ⊢
    cases e with
    | timer => exact no_return_before_red_sent es log h
    | waiter => exact ih h
    | receiver => exact ih h

/-- C7, the claim as stated fails, in two ways.  After the first phase change
of a new light (line 88, then the send) the phase is green and the green
message is still in the mailbox: a `waitForGreen` started there returns on its
first iteration, with no further send.  And after line 88 alone the phase is
green, the mailbox empty and nothing sent yet: a `waitForGreen` started there
returns after the one send that follows. -/
theorem waitForGreen_returns_at_once_on_pending_green :
    ((Threads.run Threads.start [Step.timer, Step.timer]).light._currentPhase = green ∧
      (Threads.run (Threads.run Threads.start [Step.timer, Step.timer]) [Step.waiter]).returned =
        true ∧
      (Threads.run (Threads.run Threads.start [Step.timer, Step.timer]) [Step.waiter]).sent =
        (Threads.run Threads.start [Step.timer, Step.timer]).sent) ∧
    ((Threads.run Threads.start [Step.timer]).light._currentPhase = green ∧
      (Threads.run Threads.start [Step.timer]).light._msgQueue._queue = [] ∧
      (Threads.run Threads.start [Step.timer]).sent = [] ∧
      (Threads.run (Threads.run Threads.start [Step.timer]) [Step.timer, Step.waiter]).returned =
        true ∧
      (Threads.run (Threads.run Threads.start [Step.timer]) [Step.timer, Step.waiter]).sent =
        [green]) := by
  decide

/-- C7, amended: in every state in which the phase is green, the timer thread
is not between its write of the phase and the send of it, and the mailbox is
empty (the green message has been sent and consumed), a `waitForGreen` call
started there has not returned after any interleaving in which the timer has
not since sent red and then green; it returns once the timer has done so and
the call is scheduled.  One iteration of `waitForGreen` on any light does the
same to the mailbox and gives the same verdict whatever `_currentPhase` is, and
leaves `_currentPhase` as it is. -/
theorem waitForGreen_waits_for_next_green (tl : TrafficLight) (log : List TrafficLightPhase)
    (hphase : tl._currentPhase = green) (hempty : tl._msgQueue._queue = []) :
    (∀ sched : List Step, (Threads.run ⟨tl, false, log, false⟩ sched).returned = true →
      ∃ rest, (Threads.run ⟨tl, false, log, false⟩ sched).sent = log ++ red :: green :: rest) ∧
    (Threads.run ⟨tl, false, log, false⟩
      [Step.timer, Step.timer, Step.timer, Step.timer, Step.waiter]).returned = true ∧
    (∀ (l : TrafficLight) (p : TrafficLightPhase),
      ({ l with _currentPhase := p } : TrafficLight).waitForGreenIter.2 = l.waitForGreenIter.2 ∧
      ({ l with _currentPhase := p } : TrafficLight).waitForGreenIter.1._msgQueue =
        l.waitForGreenIter.1._msgQueue ∧
      ({ l with _currentPhase := p } : TrafficLight).waitForGreenIter.1._currentPhase = p) := by
  rcases tl with ⟨p, ⟨l⟩⟩
  simp only at hphase hempty
  subst hphase
  subst hempty
  refine ⟨fun sched h => no_return_before_red_then_green sched log h, rfl, ?_⟩
  intro l p
  rcases l with ⟨p0, ⟨q⟩⟩
  cases q with
  | nil => exact ⟨rfl, rfl, rfl⟩
  | cons x xs => exact ⟨rfl, rfl, rfl⟩

theorem waitForGreen_waits_for_next_green_witness :
    (Threads.run Threads.start [Step.timer, Step.timer, Step.receiver]).light._currentPhase =
        green ∧
      (Threads.run Threads.start
        [Step.timer, Step.timer, Step.receiver]).light._msgQueue._queue = [] ∧
      (Threads.run Threads.start [Step.timer, Step.timer, Step.receiver]).sending = false ∧
      (Threads.run
        ⟨(Threads.run Threads.start [Step.timer, Step.timer, Step.receiver]).light, false,
          [green], false⟩
        [Step.timer, Step.waiter, Step.timer, Step.waiter, Step.timer, Step.timer,
          Step.waiter]).returned = true ∧
      ∃ rest, (Threads.run
        ⟨(Threads.run Threads.start [Step.timer, Step.timer, Step.receiver]).light, false,
          [green], false⟩
        [Step.timer, Step.waiter, Step.timer, Step.waiter, Step.timer, Step.timer,
          Step.waiter]).sent = [green] ++ red :: green :: rest :=
  ⟨by decide, by decide, by decide, by decide,
    (waitForGreen_waits_for_next_green
      (Threads.run Threads.start [Step.timer, Step.timer, Step.receiver]).light [green]
      (by decide) (by decide)).1 _ (by decide)⟩

/-- C10: in every state reached from a newly constructed light by an
interleaving of atomic toggles and receives (by the observed caller of
`waitForGreen` or by any other thread), the mailbox is empty or holds exactly
the current phase; right after a toggle it holds exactly the new current
phase. -/
theorem mailbox_empty_or_current_phase (sched : List Event) :
    ((Sys.run ⟨TrafficLight.init, false⟩ sched).light._msgQueue._queue = [] ∨
      (Sys.run ⟨TrafficLight.init, false⟩ sched).light._msgQueue._queue =
        [(Sys.run ⟨TrafficLight.init, false⟩ sched).light._currentPhase]) ∧
    (Sys.run ⟨TrafficLight.init, false⟩ (sched ++ [Event.toggle])).light._msgQueue._queue =
      [(Sys.run ⟨TrafficLight.init, false⟩ (sched ++ [Event.toggle])).light._currentPhase] ∧
    (Sys.run ⟨TrafficLight.init, false⟩ (sched ++ [Event.toggle])).light._currentPhase ≠
      (Sys.run ⟨TrafficLight.init, false⟩ sched).light._currentPhase := by
  refine ⟨?_, ?_, ?_⟩
  · induction sched using List.reverseRecOn with
    | nil => left; rfl
    | append_singleton es e ih =>
      rw [run_snoc]
      exact step_preserves_fresh_or_current _ e ih
  · rw [run_snoc]
    exact changePhase_queue _
  · rw [run_snoc]
    show (Sys.run ⟨TrafficLight.init, false⟩ sched).light.changePhase.1._currentPhase ≠ _
    rw [changePhase_phase]
    cases (Sys.run ⟨TrafficLight.init, false⟩ sched).light._currentPhase <;> simp

end Interleaving

end TrafficSim
